import Mathlib

/-!
Shallow embedding of the ACES patch-generation pipeline: the functions
`Utils.filter_good_patches`, `Utils.split_dataset`, `TFUtils.beam_serialize`
and `EEUtils.beam_get_training_patches` of `aces/utils.py`, together with the
Beam pipeline `TrainingDataGenerator.generate_training_patch_data` of
`examples/generate_training_patches.py`.

Numeric model: IEEE float32 payloads are modelled by `F32`, an extended
rational value: `nan`, `inf`, `neginf` or a finite rational.  Finite addition
is exact rational addition (rounding and overflow of finite float sums are
idealised away); the NaN/infinity propagation rules of IEEE addition are
kept exactly, since the patch validator only inspects the NaN/infinity
classification of a sum.
-/


/-- One float32 cell value: NaN, an infinity, or a finite value. -/
inductive F32 where
  | nan
  | inf
  | neginf
  | val (q : ℚ)
deriving DecidableEq

namespace F32

/-- Addition on extended values, following IEEE NaN/infinity propagation:
NaN absorbs, opposite infinities give NaN, an infinity absorbs finite
values, and finite values add exactly. -/
def add : F32 → F32 → F32
  | nan, _ => nan
  | _, nan => nan
  | inf, neginf => nan
  | neginf, inf => nan
  | inf, _ => inf
  | _, inf => inf
  | neginf, _ => neginf
  | _, neginf => neginf
  | val a, val b => val (a + b)

/-- `np.isnan` on a single value. -/
def isnan : F32 → Bool
  | nan => true
  | _ => false

/-- `np.isinf` on a single value (true for both infinities). -/
def isinf : F32 → Bool
  | inf => true
  | neginf => true
  | _ => false

/-- A value that is neither NaN nor infinite. -/
def isFinite : F32 → Bool
  | val _ => true
  | _ => false

end F32

/-- One named band of a patch: `rows` is the patch_size × patch_size array
of the band, as a list of rows (row-major). -/
structure Band where
  name : String
  rows : List (List F32)
deriving DecidableEq

/-- A decoded structured patch (`np.ndarray` with one field per band). -/
abbrev Patch := List Band

/-- The flattened values of one band, row-major (`patch[name].flatten()`). -/
def Band.flatten (b : Band) : List F32 := b.rows.flatten

/-- `patch.view(np.float32)`: the combined numeric view of all cells of all
bands as one flat list.  (The memory interleaving order of a structured
array is irrelevant here: only the multiset of values matters to the
NaN/infinity classification of the sum.) -/
def Patch.view (p : Patch) : List F32 := (p.map Band.flatten).flatten

/-- `np.sum` over the combined view. -/
def npSum (l : List F32) : F32 := l.foldl F32.add (F32.val 0)

/-- `Utils.filter_good_patches` (aces/utils.py lines 369-385):
`has_nan = np.isnan(np.sum(patch.view(np.float32)))`,
`has_inf = np.isinf(np.sum(patch.view(np.float32)))`,
returns `False` if either holds, else `True`. -/
def filter_good_patches (patch : Patch) : Bool :=
  let has_nan := (npSum (Patch.view patch)).isnan
  let has_inf := (npSum (Patch.view patch)).isinf
  if has_nan || has_inf then false else true

/-!
`Utils.split_dataset` (aces/utils.py lines 331-335):

    weights = [1 - validation_ratio - test_ratio, validation_ratio, test_ratio]
    return random.choices([0, 1, 2], weights)[0]

CPython's `random.choices(population, weights)` computes
`cum_weights = list(accumulate(weights))`, `total = cum_weights[-1]`,
`hi = len(population) - 1`, draws `r = random()` uniform in `[0, 1)` and
returns `population[bisect_right(cum_weights, r * total, 0, hi)]`.
The uniform draw `r` is made an explicit argument.
-/

/-- `itertools.accumulate` with the running sum threaded through. -/
def accumulateFrom (a : ℚ) : List ℚ → List ℚ
  | [] => [a]
  | y :: ys => a :: accumulateFrom (a + y) ys

/-- `itertools.accumulate` over rationals (running prefix sums). -/
def accumulate : List ℚ → List ℚ
  | [] => []
  | x :: xs => accumulateFrom x xs

/-- `bisect.bisect_right(xs, x, 0, hi)` for a sorted list: the number of
elements among the first `hi` that are `≤ x`. -/
def bisect_right (xs : List ℚ) (x : ℚ) (hi : ℕ) : ℕ :=
  (xs.take hi).countP (fun a => decide (a ≤ x))

/-- `Utils.split_dataset(element, num_partitions, validation_ratio, test_ratio)`
with the uniform draw `r` of `random.choices` made explicit.  `element` and
`num_partitions` are parameters of the Python function that its body never
reads. -/
def split_dataset {α : Type} (element : α) (num_partitions : ℕ) (r : ℚ)
    ( validation_ratio test_ratio : ℚ) : ℕ :=
  let weights : List ℚ :=
    [1 - validation_ratio - test_ratio, validation_ratio, test_ratio]
  let cum_weights := accumulate weights
  let total := cum_weights.getLastD 0
  bisect_right cum_weights (r * total) (weights.length - 1)

/-!
`TFUtils.beam_serialize` (aces/utils.py lines 311-322):

    features = {name: tf.train.Feature(
                  float_list=tf.train.FloatList(value=patch[name].flatten()))
                for name in patch.dtype.names}
    example = tf.train.Example(features=tf.train.Features(feature=features))
    return example.SerializeToString()

The record is modelled at the feature level: one `tf.train.Example` is its
list of named float features, in field order.  The protobuf byte framing is
a bijective wire encoding of this feature map and is kept abstract.
-/

/-- A serialized record: the named float-list features of one
`tf.train.Example`. -/
abbrev SerializedRecord := List (String × List F32)

/-- `TFUtils.beam_serialize`: one named float feature per field of the
structured patch, each holding that band's array flattened in row-major
order. -/
def beam_serialize (patch : Patch) : SerializedRecord :=
  patch.map (fun b => (b.name, b.flatten))

/-- Decoding a serialized record: select the (first) float feature with the
given name, as the downstream reader does. -/
def decodeFeature : List (String × List F32) → String → Option (List F32)
  | [], _ => none
  | f :: fs, name => if f.1 = name then some f.2 else decodeFeature fs name

/-!
`get_patch` inside `EEUtils.beam_get_training_patches` (aces/utils.py lines
254-274):

    @retry.Retry(timeout=300)
    def get_patch(image, region, bands, patch_size):
        url = image.getDownloadURL({...})
        response = requests.get(url)
        if response.status_code == 429:
            raise exceptions.TooManyRequests(response.text)
        response.raise_for_status()
        return np.load(io.BytesIO(response.content), allow_pickle=True)

`google.api_core.retry.Retry(timeout=300)` retries the body with
exponential back-off while its default predicate `if_transient_error`
accepts the raised exception (`TooManyRequests` and transient connection
errors are transient; the `requests.HTTPError` raised by
`raise_for_status()` for any other non-2xx status is not), and raises
`RetryError` once the next back-off sleep would pass the 300-second
deadline.  The jittered back-off amounts are abstracted as an arbitrary
sleep sequence `sleeps`, and each attempt's backend response as a sequence
of responses.
-/

/-- The backend's response to the `i`-th download attempt. -/
inductive BackendResp where
  | ok (patch : Patch)
  | rateLimited
  | connectionFailed
  | httpError (code : ℕ)
deriving DecidableEq

/-- Responses on which the body raises a transient
(`if_transient_error`-accepted) exception. -/
def BackendResp.isTransient : BackendResp → Bool
  | rateLimited => true
  | connectionFailed => true
  | _ => false

/-- What one execution of the `get_patch` body raises or returns. -/
inductive CallResult where
  | success (patch : Patch)
  | tooManyRequests
  | connectionError
  | httpError (code : ℕ)
deriving DecidableEq

/-- One execution of the `get_patch` body against attempt `i`: HTTP 429
raises `exceptions.TooManyRequests`, a network failure raises a transient
connection error, any other non-2xx makes `raise_for_status()` raise
`requests.HTTPError`, and a 2xx response returns the decoded array. -/
def get_patch_once (backend : ℕ → BackendResp) (i : ℕ) : CallResult :=
  match backend i with
  | .ok p => .success p
  | .rateLimited => .tooManyRequests
  | .connectionFailed => .connectionError
  | .httpError c => .httpError c

/-- `google.api_core.retry.if_transient_error` on the raised exception. -/
def retryable : CallResult → Bool
  | .tooManyRequests => true
  | .connectionError => true
  | _ => false

/-- The observable outcome of the retry-wrapped call. -/
inductive RetryOutcome where
  | success (patch : Patch)
  | retryError
  | hardFailure (code : ℕ)
deriving DecidableEq

/-- The retry loop of `retry.Retry`: attempt the call; on success return;
a non-retryable exception propagates; on a retryable exception, sleep the
next back-off amount unless that would pass the deadline, in which case
`RetryError` is raised.  `i` is the attempt index, `t` the elapsed time,
and `fuel` a structural recursion bound (the theorems below always supply
enough fuel for the `0` case never to be reached). -/
def retryLoop (backend : ℕ → BackendResp) (sleeps : ℕ → ℚ) (deadline : ℚ) :
    ℕ → ℕ → ℚ → RetryOutcome
  | 0, _, _ => .retryError
  | fuel + 1, i, t =>
    match get_patch_once backend i with
    | .success p => .success p
    | .httpError c => .hardFailure c
    | _ =>
      if deadline < t + sleeps i then .retryError
      else retryLoop backend sleeps deadline fuel (i + 1) (t + sleeps i)

/-- `get_patch`: the body wrapped in `retry.Retry(timeout=300)`. -/
def get_patch (backend : ℕ → BackendResp) (sleeps : ℕ → ℚ) (fuel : ℕ) :
    RetryOutcome :=
  retryLoop backend sleeps 300 fuel 0 0

/-- Total back-off slept across attempts `i, i+1, ..., i+m-1`. -/
def sumFrom (sleeps : ℕ → ℚ) (i : ℕ) : ℕ → ℚ
  | 0 => 0
  | m + 1 => sumFrom sleeps i m + sleeps (i + m)

/-!
The Beam pipeline `TrainingDataGenerator.generate_training_patch_data`
(examples/generate_training_patches.py lines 109-133):

    | "Create range" >> beam.Create(range(0, self.sample_size, 1))
    | "Yield sample points" >> beam.Map(EEUtils.beam_yield_sample_points, ...)
    | "Get patch" >> beam.Map(EEUtils.beam_get_training_patches, ...)
    | "Filter patches" >> beam.Filter(Utils.filter_good_patches)
    | "Serialize" >> beam.Map(TFUtils.beam_serialize)
    | "Split dataset" >> beam.Partition(Utils.split_dataset, 3, ...)

with, from `load_data` (lines 67-69) and `__init__` (line 45),
`sample_size = sample_locations.size()` and
`sample_locations_list = sample_locations.toList(sample_size + grace)`,
`grace = 10`.

There is no exception handling around the `beam.Map` stages: an exception
raised by the patch fetch (for example a `RetryError` after budget
exhaustion, or an `HTTPError`) propagates out of the `DoFn`, fails the
bundle and, after runner retries, the job.  The run is therefore modelled
in an error monad: element processing is fail-fast, a raised fetch error
yields `Except.error` (a job failure, no output streams) rather than a
dropped element, while `beam.Filter` genuinely drops rejected elements.
The per-index coordinate lookup composed with the fetch is abstracted as
`fetch : ℕ → RetryOutcome`, and the `j`-th record's uniform draw inside
`beam.Partition`'s call of `split_dataset` as `rs j`.
-/

/-- The "Create range" stage: `beam.Create(range(0, self.sample_size, 1))`. -/
def create_range (sample_size : ℕ) : List ℕ := List.range sample_size

/-- `load_data` line 69: the materialized sample list is
`sample_locations.toList(self.sample_size + self.grace)`, of this length. -/
def sample_locations_list_len (sample_size grace : ℕ) : ℕ := sample_size + grace

/-- The "Get patch" `beam.Map` stage: a successful fetch yields the element;
a raised exception (retry exhaustion or hard failure) aborts the run with
the offending index. -/
def fetchStage (fetch : ℕ → RetryOutcome) : List ℕ → Except ℕ (List Patch)
  | [] => .ok []
  | i :: rest =>
    match fetch i with
    | .success p =>
      match fetchStage fetch rest with
      | .ok ps => .ok (p :: ps)
      | .error e => .error e
    | _ => .error i

/-- The "Split dataset" stage `beam.Partition(Utils.split_dataset, 3, ...)`:
route each record to the stream whose index `split_dataset` returns for it,
the `j`-th record using the uniform draw `rs j`. -/
def partition3 ( validation_ratio test_ratio : ℚ) (rs : ℕ → ℚ) :
    ℕ → List SerializedRecord →
      List SerializedRecord × List SerializedRecord × List SerializedRecord
  | _, [] => ([], [], [])
  | j, x :: rest =>
    let s := partition3 validation_ratio test_ratio rs (j + 1) rest
    match split_dataset x 3 (rs j) validation_ratio test_ratio with
    | 0 => (x :: s.1, s.2.1, s.2.2)
    | 1 => (s.1, x :: s.2.1, s.2.2)
    | _ => (s.1, s.2.1, x :: s.2.2)

/-- `generate_training_patch_data`: Create range, Yield sample points and
Get patch (folded into `fetch`), Filter patches, Serialize, Split dataset. -/
def generate_training_patch_data (fetch : ℕ → RetryOutcome)
    ( validation_ratio test_ratio : ℚ) (rs : ℕ → ℚ) (sample_size : ℕ) :
    Except ℕ
      (List SerializedRecord × List SerializedRecord × List SerializedRecord) :=
  match fetchStage fetch (create_range sample_size) with
  | .error e => .error e
  | .ok patches =>
    let good := patches.filter filter_good_patches
    let recs := good.map beam_serialize
    .ok (partition3 validation_ratio test_ratio rs 0 recs)

/-- A fetch behaviour on two samples: element 0 exhausts its retry budget,
element 1 fetches an all-finite patch. -/
def badFetch : ℕ → RetryOutcome :=
  fun i => if i = 0 then .retryError else .success [⟨"B_before", [[F32.val 1]]⟩]

/-- A constant 4×4 band. -/
def constBand (name : String) (q : ℚ) : Band :=
  ⟨name, List.replicate 4 (List.replicate 4 (F32.val q))⟩

/-- The all-finite stub patch for sample `i`: two 4×4 bands. -/
def stubPatch (i : ℕ) : Patch :=
  [constBand "B_before" (i : ℚ), constBand "G_before" ((i : ℚ) + 100)]

/-- The one bad stub patch: sample 3's patch with a single NaN cell. -/
def nanPatch : Patch :=
  [⟨"B_before", [[F32.val 3, F32.val 3, F32.val 3, F32.val 3],
                 [F32.val 3, F32.nan, F32.val 3, F32.val 3],
                 [F32.val 3, F32.val 3, F32.val 3, F32.val 3],
                 [F32.val 3, F32.val 3, F32.val 3, F32.val 3]]⟩,
   constBand "G_before" 103]

/-- The stub raster backend: deterministic 4×4 2-band patches for every
sample, of which exactly sample 3's patch contains a NaN. -/
def stubFetch (i : ℕ) : RetryOutcome :=
  if i = 3 then .success nanPatch else .success (stubPatch i)

/-- What the stub backend delivers over the ten samples. -/
def stubFetchedPatches : List Patch :=
  [stubPatch 0, stubPatch 1, stubPatch 2, nanPatch, stubPatch 4,
   stubPatch 5, stubPatch 6, stubPatch 7, stubPatch 8, stubPatch 9]

/-- The nine all-finite patches among them. -/
def stubGoodPatches : List Patch :=
  [stubPatch 0, stubPatch 1, stubPatch 2, stubPatch 4, stubPatch 5,
   stubPatch 6, stubPatch 7, stubPatch 8, stubPatch 9]

/-!
Region construction in `EEUtils.beam_get_training_patches`
(aces/utils.py lines 305-307):

    point = ee.Geometry.Point(coords)
    region = point.buffer(scale * patch_size / 2, 1).bounds(1)

`ee.Geometry.Point`, `.buffer` and `.bounds` are operations of the external
Earth Engine backend.  Modelled from the spec (RasterRegion, §3): they are
given their idealised planar semantics — `buffer` of a point by distance
`d` is the disc of radius `d` about it, `bounds` the axis-aligned bounding
rectangle of a geometry — over exact rational coordinates.
-/

/-- A planar coordinate pair `(lon, lat)`. -/
structure PlanePoint where
  x : ℚ
  y : ℚ
deriving DecidableEq

/-- The geometries the region construction manipulates. -/
inductive Geometry where
  | point (c : PlanePoint)
  | disc (c : PlanePoint) (radius : ℚ)
  | rect (xmin xmax ymin ymax : ℚ)
deriving DecidableEq

/-- Modelled from the spec: `ee.Geometry.buffer` on a point — the disc of
the given radius about it (other geometries are not buffered by the code
under study). -/
def Geometry.buffer : Geometry → ℚ → Geometry
  | point c, d => disc c d
  | g, _ => g

/-- Modelled from the spec: `ee.Geometry.bounds` — the axis-aligned
bounding rectangle. -/
def Geometry.bounds : Geometry → Geometry
  | point c => rect c.x c.x c.y c.y
  | disc c d => rect (c.x - d) (c.x + d) (c.y - d) (c.y + d)
  | rect a b c d => rect a b c d

/-- The raster region built for the patch fetch:
`ee.Geometry.Point(coords).buffer(scale * patch_size / 2, 1).bounds(1)`. -/
def patch_region (coords : PlanePoint) (scale : ℚ) (patch_size : ℕ) : Geometry :=
  ((Geometry.point coords).buffer (scale * (patch_size : ℚ) / 2)).bounds

namespace F32

theorem add_nan_left (x : F32) : add nan x = nan := by
  cases x <;> rfl

theorem add_nan_right (x : F32) : add x nan = nan := by
  cases x <;> rfl

/-- `add` returns a finite value only when both arguments are finite. -/
theorem finite_of_add_finite {x y : F32} {q : ℚ} (h : add x y = val q) :
    x.isFinite = true ∧ y.isFinite = true := by
  cases x <;> cases y <;> simp [add, isFinite] at h ⊢

end F32

/-- Folding `F32.add` from a finite accumulator over a list yields a finite
value only if the accumulator and every element are finite. -/
theorem finite_of_foldl_finite :
    ∀ (l : List F32) (a : F32) (q : ℚ), l.foldl F32.add a = F32.val q →
      a.isFinite = true ∧ ∀ x ∈ l, x.isFinite = true := by
  intro l
  induction l with
  | nil =>
    intro a q h
    simp only [List.foldl] at h
    refine ⟨by rw [h]; rfl, ?_⟩
    intro x hx
    simp at hx
  | cons x xs ih =>
    intro a q h
    simp only [List.foldl] at h
    obtain ⟨hax, hxs⟩ := ih (F32.add a x) q h
    have hav : ∃ q2 : ℚ, F32.add a x = F32.val q2 := by
      cases hadd : F32.add a x with
      | val q2 => exact ⟨q2, rfl⟩
      | nan => rw [hadd] at hax; simp [F32.isFinite] at hax
      | inf => rw [hadd] at hax; simp [F32.isFinite] at hax
      | neginf => rw [hadd] at hax; simp [F32.isFinite] at hax
    obtain ⟨q2, hq2⟩ := hav
    obtain ⟨ha, hx⟩ := F32.finite_of_add_finite hq2
    refine ⟨ha, ?_⟩
    intro y hy
    rcases List.mem_cons.mp hy with hy | hy
    · exact hy ▸ hx
    · exact hxs y hy

/-- Folding `F32.add` from a finite accumulator over a list of finite values
yields a finite value. -/
theorem foldl_finite_of_all_finite :
    ∀ (l : List F32) (a : ℚ), (∀ x ∈ l, x.isFinite = true) →
      ∃ q : ℚ, l.foldl F32.add (F32.val a) = F32.val q := by
  intro l
  induction l with
  | nil => intro a _; exact ⟨a, rfl⟩
  | cons x xs ih =>
    intro a hall
    have hx := hall x (List.mem_cons_self x xs)
    cases x with
    | val qx =>
      simpa [List.foldl, F32.add] using
        ih (a + qx) (fun y hy => hall y (List.mem_cons_of_mem _ hy))
    | nan => simp [F32.isFinite] at hx
    | inf => simp [F32.isFinite] at hx
    | neginf => simp [F32.isFinite] at hx

/-- C1: `Utils.filter_good_patches` accepts a patch iff the combined view of
all bands contains zero NaN and zero infinite values: any NaN or infinity
anywhere across all bands rejects the patch, and an all-finite patch is
accepted. -/
theorem filter_good_patches_accepts_iff_all_finite (p : Patch) :
    filter_good_patches p = true ↔
      ∀ x ∈ Patch.view p, x.isnan = false ∧ x.isinf = false := by
  constructor
  · intro h x hx
    simp only [filter_good_patches] at h
    split at h
    · exact absurd h (by simp)
    · rename_i hcond
      have hfin : ∃ q : ℚ, npSum (Patch.view p) = F32.val q := by
        cases hs : npSum (Patch.view p) with
        | val q => exact ⟨q, rfl⟩
        | nan => rw [hs] at hcond; simp [F32.isnan] at hcond
        | inf => rw [hs] at hcond; simp [F32.isinf] at hcond
        | neginf => rw [hs] at hcond; simp [F32.isinf] at hcond
      obtain ⟨q, hq⟩ := hfin
      have := (finite_of_foldl_finite (Patch.view p) (F32.val 0) q hq).2 x hx
      cases x <;> simp [F32.isFinite, F32.isnan, F32.isinf] at this ⊢
  · intro hall
    have hfin : ∀ x ∈ Patch.view p, x.isFinite = true := by
      intro x hx
      have := hall x hx
      cases x <;> simp [F32.isnan, F32.isinf, F32.isFinite] at this ⊢
    obtain ⟨q, hq⟩ := foldl_finite_of_all_finite (Patch.view p) 0 hfin
    simp [filter_good_patches, npSum] at hq ⊢
    rw [hq]
    simp [F32.isnan, F32.isinf]

/-- Witness: a concrete all-finite 2×2 single-band patch is accepted, via
`filter_good_patches_accepts_iff_all_finite`; a patch containing a NaN is
rejected. -/
theorem filter_good_patches_witness :
    filter_good_patches [⟨"B_before", [[F32.val 1, F32.val 2], [F32.val 3, F32.val 4]]⟩] = true ∧
    filter_good_patches [⟨"B_before", [[F32.val 1, F32.nan], [F32.val 3, F32.val 4]]⟩] = false := by
  constructor
  · exact (filter_good_patches_accepts_iff_all_finite _).mpr (by decide)
  · decide

theorem bisect_right_le (xs : List ℚ) (x : ℚ) (hi : ℕ) :
    bisect_right xs x hi ≤ hi :=
  le_trans (List.countP_le_length _) (by simpa using List.length_take_le hi xs)

/-- Evaluated form of `split_dataset`: a two-comparison bisection against the
cumulative weights. -/
theorem split_dataset_eval {α : Type} (element : α) (np : ℕ) (r v t : ℚ) :
    split_dataset element np r v t =
      ((if (1 - v - t) + v ≤ r * ((1 - v - t) + v + t) then 1 else 0) +
       (if (1 - v - t) ≤ r * ((1 - v - t) + v + t) then 1 else 0) : ℕ) := by
  simp [split_dataset, accumulate, accumulateFrom, bisect_right,
    List.countP_cons, List.getLastD]

/-- C5: for ratios `0 ≤ v`, `0 ≤ t`, `v + t < 1` and a uniform draw
`r ∈ [0, 1)`, `Utils.split_dataset` is a weighted draw over `{0, 1, 2}`
with weights `(1 - v - t, v, t)`: the draw lands in `{0, 1, 2}`, and the
preimage of each split index is the subinterval of `[0, 1)` of length equal
to its weight. -/
theorem split_dataset_weighted_draw {α : Type} (element : α) (r v t : ℚ)
    (hv : 0 ≤ v) (ht : 0 ≤ t) (hvt : v + t < 1) (hr0 : 0 ≤ r) (hr1 : r < 1) :
    split_dataset element 3 r v t < 3 ∧
    (split_dataset element 3 r v t = 0 ↔ r < 1 - v - t) ∧
    (split_dataset element 3 r v t = 1 ↔ 1 - v - t ≤ r ∧ r < 1 - t) ∧
    (split_dataset element 3 r v t = 2 ↔ 1 - t ≤ r) := by
  have htot : r * ((1 - v - t) + v + t) = r := by ring
  have heval := split_dataset_eval element 3 r v t
  rw [htot] at heval
  have hsum : (1 - v - t) + v = 1 - t := by ring
  rw [hsum] at heval
  rcases lt_or_le r (1 - v - t) with h1 | h1
  · have h2 : r < 1 - t := by linarith
    rw [heval, if_neg (by linarith), if_neg (by linarith)]
    refine ⟨by norm_num, ?_, ?_, ?_⟩
    · simp [h1]
    · simp; intro h; linarith
    · simp; linarith
  · rcases lt_or_le r (1 - t) with h2 | h2
    · rw [heval, if_neg (by linarith), if_pos (by linarith)]
      refine ⟨by norm_num, ?_, ?_, ?_⟩
      · simp; linarith
      · simp [h1, h2]
      · simp; linarith
    · rw [heval, if_pos (by linarith), if_pos (by linarith)]
      refine ⟨by norm_num, ?_, ?_, ?_⟩
      · simp; linarith
      · simp; intro h; linarith
      · simp [h2]

/-- Witness for C5 at a concrete input: with `v = t = 1/5` and draw
`r = 1/2 < 3/5`, the record goes to split 0 (TRAIN). -/
theorem split_dataset_weighted_draw_witness :
    split_dataset (0 : ℕ) 3 (1/2) (1/5) (1/5) = 0 := by
  refine ((split_dataset_weighted_draw (0 : ℕ) (1/2) (1/5) (1/5)
    (by norm_num) (by norm_num) (by norm_num) (by norm_num) (by norm_num)).2.1).mpr ?_
  norm_num

/-- C10: the split assignment is independent of both the `element` argument
and the `num_partitions` argument — for the same state of the random source
(the same uniform draw `r`) and the same ratios, any two elements and any
two partition counts receive the identical split index — and the returned
index always lies in `{0, 1, 2}` regardless of `num_partitions`. -/
theorem split_dataset_independent_of_element_and_num_partitions
    {α β : Type} (e1 : α) (e2 : β) (n1 n2 : ℕ) (r v t : ℚ) :
    split_dataset e1 n1 r v t = split_dataset e2 n2 r v t ∧
    split_dataset e1 n1 r v t < 3 := by
  refine ⟨rfl, ?_⟩
  have h : split_dataset e1 n1 r v t ≤ 2 := by
    simpa [split_dataset] using
      bisect_right_le (accumulate [1 - v - t, v, t]) _ 2
  omega

theorem decodeFeature_serialize :
    ∀ (patch : Patch), (patch.map Band.name).Nodup →
      (∀ b ∈ patch, decodeFeature (beam_serialize patch) b.name = some b.flatten) ∧
      (∀ name, name ∉ patch.map Band.name →
        decodeFeature (beam_serialize patch) name = none) := by
  intro patch
  induction patch with
  | nil =>
    intro _
    refine ⟨?_, ?_⟩
    · intro b hb; simp at hb
    · intro name _; rfl
  | cons b bs ih =>
    intro hnodup
    simp only [List.map_cons, List.nodup_cons] at hnodup
    obtain ⟨hbnotin, hnd⟩ := hnodup
    obtain ⟨ih1, ih2⟩ := ih hnd
    refine ⟨?_, ?_⟩
    · intro b' hb'
      rcases List.mem_cons.mp hb' with rfl | hb'
      · simp [beam_serialize, decodeFeature]
      · have hne : b.name ≠ b'.name := by
          intro h
          exact hbnotin (h ▸ List.mem_map_of_mem Band.name hb')
        simp only [beam_serialize, List.map_cons, decodeFeature]
        rw [if_neg hne]
        exact ih1 b' hb'
    · intro name hname
      simp only [List.map_cons, List.mem_cons, not_or] at hname
      simp only [beam_serialize, List.map_cons, decodeFeature]
      rw [if_neg (fun h => hname.1 h.symm)]
      exact ih2 name hname.2

/-- C6: the serializer emits exactly one named float feature per band name
present in the patch — the feature names of the output are exactly the
patch's band names, in order, with no other fields — and each feature's
value list is that band's array flattened in row-major order.  In
particular a patch with bands `["B_before", "G_before"]` serializes to a
record with exactly those two named fields. -/
theorem beam_serialize_exactly_band_features (patch : Patch) :
    ((beam_serialize patch).map Prod.fst = patch.map Band.name ∧
      ∀ b ∈ patch, (b.name, b.rows.flatten) ∈ beam_serialize patch) ∧
    ∀ r1 r2 : List (List F32),
      (beam_serialize [⟨"B_before", r1⟩, ⟨"G_before", r2⟩]).map Prod.fst =
        ["B_before", "G_before"] := by
  refine ⟨⟨?_, ?_⟩, ?_⟩
  · simp only [beam_serialize, List.map_map]
    rfl
  · intro b hb
    exact List.mem_map_of_mem (fun b => (b.name, b.flatten)) hb
  · intro r1 r2
    rfl

/-- Witness for C6 at a concrete two-band 1×2 patch. -/
theorem beam_serialize_exactly_band_features_witness :
    ("B_before", [F32.val 1, F32.val 2]) ∈
      beam_serialize [⟨"B_before", [[F32.val 1, F32.val 2]]⟩,
                      ⟨"G_before", [[F32.val 3, F32.val 4]]⟩] :=
  (beam_serialize_exactly_band_features
    [⟨"B_before", [[F32.val 1, F32.val 2]]⟩,
     ⟨"G_before", [[F32.val 3, F32.val 4]]⟩]).1.2
    ⟨"B_before", [[F32.val 1, F32.val 2]]⟩ (by simp)

/-- C7: serialize-then-decode is a round trip.  For a patch whose band
names are distinct (numpy structured field names are), decoding the
serialized record at any band name yields exactly that band's row-major
flattened float array, and decoding at any name that is not a band of the
patch yields nothing. -/
theorem beam_serialize_decode_roundtrip (patch : Patch)
    (hnodup : (patch.map Band.name).Nodup) :
    (∀ b ∈ patch, decodeFeature (beam_serialize patch) b.name = some b.flatten) ∧
    (∀ name, name ∉ patch.map Band.name →
      decodeFeature (beam_serialize patch) name = none) :=
  decodeFeature_serialize patch hnodup

/-- Witness for C7 at a concrete two-band patch with distinct band names. -/
theorem beam_serialize_decode_roundtrip_witness :
    decodeFeature
      (beam_serialize [⟨"B_before", [[F32.val 1, F32.val 2]]⟩,
                       ⟨"G_before", [[F32.val 3, F32.val 4]]⟩])
      "G_before" = some [F32.val 3, F32.val 4] :=
  (beam_serialize_decode_roundtrip
    [⟨"B_before", [[F32.val 1, F32.val 2]]⟩,
     ⟨"G_before", [[F32.val 3, F32.val 4]]⟩] (by decide)).1
    ⟨"G_before", [[F32.val 3, F32.val 4]]⟩ (by simp)

theorem sumFrom_succ_left (sleeps : ℕ → ℚ) (i : ℕ) :
    ∀ m, sumFrom sleeps i (m + 1) = sleeps i + sumFrom sleeps (i + 1) m := by
  intro m
  induction m with
  | zero => simp [sumFrom]
  | succ m ih =>
    show sumFrom sleeps i (m + 1) + sleeps (i + (m + 1)) =
      sleeps i + (sumFrom sleeps (i + 1) m + sleeps ((i + 1) + m))
    rw [ih]
    have harg : i + (m + 1) = (i + 1) + m := by omega
    rw [harg]
    ring

/-- If the backend answers transiently for `k` attempts starting at `i`,
then succeeds, and no back-off sleep crosses the deadline, the loop
returns the decoded patch. -/
theorem retryLoop_success (backend : ℕ → BackendResp) (sleeps : ℕ → ℚ)
    (deadline : ℚ) (p : Patch) :
    ∀ (k i : ℕ) (t : ℚ) (fuel : ℕ),
      (∀ j, j < k → (backend (i + j)).isTransient = true) →
      backend (i + k) = .ok p →
      (∀ j, j < k → t + sumFrom sleeps i (j + 1) ≤ deadline) →
      retryLoop backend sleeps deadline (fuel + k + 1) i t = .success p := by
  intro k
  induction k with
  | zero =>
    intro i t fuel _ hok _
    rw [Nat.add_zero] at hok
    simp [retryLoop, get_patch_once, hok]
  | succ k ih =>
    intro i t fuel htrans hok htime
    have h0 : (backend i).isTransient = true := by
      simpa using htrans 0 (Nat.succ_pos k)
    have hle : t + sleeps i ≤ deadline := by
      simpa [sumFrom] using htime 0 (Nat.succ_pos k)
    have hfuel : fuel + (k + 1) + 1 = (fuel + k + 1) + 1 := by omega
    rw [hfuel]
    have hstep : retryLoop backend sleeps deadline ((fuel + k + 1) + 1) i t =
        retryLoop backend sleeps deadline (fuel + k + 1) (i + 1) (t + sleeps i) := by
      cases hb : backend i with
      | rateLimited =>
        simp [retryLoop, get_patch_once, hb, not_lt.mpr hle]
      | connectionFailed =>
        simp [retryLoop, get_patch_once, hb, not_lt.mpr hle]
      | ok p2 => rw [hb] at h0; simp [BackendResp.isTransient] at h0
      | httpError c => rw [hb] at h0; simp [BackendResp.isTransient] at h0
    rw [hstep]
    apply ih (i + 1) (t + sleeps i) fuel
    · intro j hj
      have := htrans (j + 1) (Nat.succ_lt_succ hj)
      have harg : i + (j + 1) = (i + 1) + j := by omega
      rwa [harg] at this
    · have harg : i + (k + 1) = (i + 1) + k := by omega
      rwa [harg] at hok
    · intro j hj
      have := htime (j + 1) (Nat.succ_lt_succ hj)
      rw [sumFrom_succ_left] at this
      linarith

/-- If the backend answers transiently through attempt `m` and the back-off
after attempt `m` would cross the deadline (all earlier ones not), the loop
raises `RetryError`. -/
theorem retryLoop_deadline_exceeded (backend : ℕ → BackendResp)
    (sleeps : ℕ → ℚ) (deadline : ℚ) :
    ∀ (m i : ℕ) (t : ℚ) (fuel : ℕ),
      (∀ j, j ≤ m → (backend (i + j)).isTransient = true) →
      (∀ j, j < m → t + sumFrom sleeps i (j + 1) ≤ deadline) →
      deadline < t + sumFrom sleeps i (m + 1) →
      retryLoop backend sleeps deadline (fuel + m + 1) i t = .retryError := by
  intro m
  induction m with
  | zero =>
    intro i t fuel htrans _ hover
    have h0 : (backend i).isTransient = true := by
      simpa using htrans 0 (Nat.le_refl 0)
    have hover0 : deadline < t + sleeps i := by
      simpa [sumFrom] using hover
    cases hb : backend i with
    | rateLimited => simp [retryLoop, get_patch_once, hb, hover0]
    | connectionFailed => simp [retryLoop, get_patch_once, hb, hover0]
    | ok p2 => rw [hb] at h0; simp [BackendResp.isTransient] at h0
    | httpError c => rw [hb] at h0; simp [BackendResp.isTransient] at h0
  | succ m ih =>
    intro i t fuel htrans htime hover
    have h0 : (backend i).isTransient = true := by
      simpa using htrans 0 (Nat.zero_le _)
    have hle : t + sleeps i ≤ deadline := by
      simpa [sumFrom] using htime 0 (Nat.succ_pos m)
    have hfuel : fuel + (m + 1) + 1 = (fuel + m + 1) + 1 := by omega
    rw [hfuel]
    have hstep : retryLoop backend sleeps deadline ((fuel + m + 1) + 1) i t =
        retryLoop backend sleeps deadline (fuel + m + 1) (i + 1) (t + sleeps i) := by
      cases hb : backend i with
      | rateLimited =>
        simp [retryLoop, get_patch_once, hb, not_lt.mpr hle]
      | connectionFailed =>
        simp [retryLoop, get_patch_once, hb, not_lt.mpr hle]
      | ok p2 => rw [hb] at h0; simp [BackendResp.isTransient] at h0
      | httpError c => rw [hb] at h0; simp [BackendResp.isTransient] at h0
    rw [hstep]
    apply ih (i + 1) (t + sleeps i) fuel
    · intro j hj
      have := htrans (j + 1) (Nat.succ_le_succ hj)
      have harg : i + (j + 1) = (i + 1) + j := by omega
      rwa [harg] at this
    · intro j hj
      have := htime (j + 1) (Nat.succ_lt_succ hj)
      rw [sumFrom_succ_left] at this
      linarith
    · rw [sumFrom_succ_left] at hover
      linarith

/-- C2: the patch-fetch wrapper classifies an HTTP 429 as a retryable
rate-limited exception and any other non-2xx as a non-retryable hard
failure; it retries only on transient conditions (429 and network errors)
under the fixed 300-second budget: a non-429 error fails immediately and
permanently; a backend that is transient for the first `k` attempts and
then succeeds yields success as long as the accumulated back-off stays
within 300 seconds; and once the accumulated back-off crosses 300 seconds
while the backend is still rate limited, the call fails permanently with
`RetryError`. -/
theorem get_patch_retry_contract (backend : ℕ → BackendResp)
    (sleeps : ℕ → ℚ) (k : ℕ) (p : Patch) (c : ℕ) :
    (get_patch_once backend 0 = .tooManyRequests ↔ backend 0 = .rateLimited) ∧
    (retryable .tooManyRequests = true ∧ retryable (.httpError c) = false) ∧
    (backend 0 = .httpError c →
      ∀ fuel, get_patch backend sleeps (fuel + 1) = .hardFailure c) ∧
    ((∀ j, j < k → (backend j).isTransient = true) → backend k = .ok p →
      (∀ j, j < k → sumFrom sleeps 0 (j + 1) ≤ 300) →
      ∀ fuel, get_patch backend sleeps (fuel + k + 1) = .success p) ∧
    (∀ m, (∀ j, j ≤ m → (backend j).isTransient = true) →
      (∀ j, j < m → sumFrom sleeps 0 (j + 1) ≤ 300) →
      300 < sumFrom sleeps 0 (m + 1) →
      ∀ fuel, get_patch backend sleeps (fuel + m + 1) = .retryError) := by
  refine ⟨?_, ⟨rfl, rfl⟩, ?_, ?_, ?_⟩
  · constructor
    · intro h
      cases hb : backend 0 with
      | rateLimited => rfl
      | ok p2 => rw [get_patch_once, hb] at h; simp at h
      | connectionFailed => rw [get_patch_once, hb] at h; simp at h
      | httpError c2 => rw [get_patch_once, hb] at h; simp at h
    · intro h
      simp [get_patch_once, h]
  · intro h fuel
    simp [get_patch, retryLoop, get_patch_once, h]
  · intro htrans hok htime fuel
    have := retryLoop_success backend sleeps 300 p k 0 0 fuel
      (by simpa using htrans) (by simpa using hok)
      (by intro j hj; simpa using htime j hj)
    simpa [get_patch] using this
  · intro m htrans htime hover fuel
    have := retryLoop_deadline_exceeded backend sleeps 300 m 0 0 fuel
      (by simpa using htrans) (by intro j hj; simpa using htime j hj)
      (by simpa using hover)
    simpa [get_patch] using this

/-- Witness for C2 at concrete inputs: a backend rate limited for the first
two attempts then succeeding, with one-second back-offs, succeeds within
the budget; a backend whose first response is HTTP 500 fails hard at once;
a permanently rate-limited backend whose first back-off is 301 seconds
exhausts the budget at once. -/
theorem get_patch_retry_contract_witness :
    get_patch (fun i => if i < 2 then .rateLimited else .ok []) (fun _ => 1) 3 =
      .success [] ∧
    get_patch (fun _ => .httpError 500) (fun _ => 1) 1 = .hardFailure 500 ∧
    get_patch (fun _ => .rateLimited) (fun _ => 301) 1 = .retryError := by
  refine ⟨?_, ?_, ?_⟩
  · exact (get_patch_retry_contract
      (fun i => if i < 2 then .rateLimited else .ok []) (fun _ => 1) 2 [] 0).2.2.2.1
      (by decide) (by norm_num)
      (by intro j hj; interval_cases j <;> norm_num [sumFrom]) 0
  · exact (get_patch_retry_contract (fun _ => .httpError 500) (fun _ => 1) 0 [] 500).2.2.1
      rfl 0
  · exact (get_patch_retry_contract (fun _ => .rateLimited) (fun _ => 301) 0 [] 0).2.2.2.2
      0 (fun j hj => rfl) (by intro j hj; exact absurd hj (Nat.not_lt_zero j))
      (by norm_num [sumFrom]) 0

theorem partition3_length_sum (v t : ℚ) (rs : ℕ → ℚ) :
    ∀ (recs : List SerializedRecord) (j : ℕ),
      (partition3 v t rs j recs).1.length +
        (partition3 v t rs j recs).2.1.length +
        (partition3 v t rs j recs).2.2.length = recs.length := by
  intro recs
  induction recs with
  | nil => intro j; rfl
  | cons x rest ih =>
    intro j
    have ih' := ih (j + 1)
    rcases hs : partition3 v t rs (j + 1) rest with ⟨a, b, cc⟩
    rw [hs] at ih'
    simp only at ih'
    rcases h : split_dataset x 3 (rs j) v t with _ | n
    · simp [partition3, h, hs]
      omega
    · rcases n with _ | n
      · simp [partition3, h, hs]
        omega
      · simp [partition3, h, hs]
        omega

theorem partition3_mem (v t : ℚ) (rs : ℕ → ℚ) :
    ∀ (recs : List SerializedRecord) (j : ℕ) (x : SerializedRecord),
      (x ∈ (partition3 v t rs j recs).1 ∨ x ∈ (partition3 v t rs j recs).2.1 ∨
        x ∈ (partition3 v t rs j recs).2.2) → x ∈ recs := by
  intro recs
  induction recs with
  | nil => intro j x hx; simp [partition3] at hx
  | cons y rest ih =>
    intro j x hx
    have ih' := ih (j + 1) x
    rcases hs : partition3 v t rs (j + 1) rest with ⟨a, b, cc⟩
    rw [hs] at ih'
    simp only at ih'
    rcases h : split_dataset x 3 (rs j) v t with _ | n
    all_goals rcases hy : split_dataset y 3 (rs j) v t with _ | m
    all_goals simp [partition3, hy, hs] at hx
    all_goals try rcases m with _ | m
    all_goals simp_all
    all_goals tauto

theorem fetchStage_error_of_fail (fetch : ℕ → RetryOutcome) :
    ∀ (l : List ℕ), (∃ i ∈ l, ∀ p, fetch i ≠ .success p) →
      ∃ e, fetchStage fetch l = .error e := by
  intro l
  induction l with
  | nil =>
    rintro ⟨i, hi, _⟩
    simp at hi
  | cons j rest ih =>
    rintro ⟨i, hi, hfail⟩
    rcases List.mem_cons.mp hi with rfl | hi
    · cases hf : fetch i with
      | success p => exact absurd hf (hfail p)
      | retryError => exact ⟨i, by simp [fetchStage, hf]⟩
      | hardFailure c => exact ⟨i, by simp [fetchStage, hf]⟩
    · cases hf : fetch j with
      | success p =>
        obtain ⟨e, he⟩ := ih ⟨i, hi, hfail⟩
        exact ⟨e, by simp [fetchStage, hf, he]⟩
      | retryError => exact ⟨j, by simp [fetchStage, hf]⟩
      | hardFailure c => exact ⟨j, by simp [fetchStage, hf]⟩

theorem fetchStage_ok_of_all_success (fetch : ℕ → RetryOutcome) :
    ∀ (l : List ℕ), (∀ i ∈ l, ∃ p, fetch i = .success p) →
      ∃ ps, fetchStage fetch l = .ok ps := by
  intro l
  induction l with
  | nil => intro _; exact ⟨[], rfl⟩
  | cons j rest ih =>
    intro hall
    obtain ⟨p, hp⟩ := hall j (List.mem_cons_self j rest)
    obtain ⟨ps, hps⟩ := ih (fun i hi => hall i (List.mem_cons_of_mem _ hi))
    exact ⟨p :: ps, by simp [fetchStage, hp, hps]⟩

/-- Evaluation of a run whose fetch stage fully succeeds. -/
theorem generate_training_patch_data_ok (fetch : ℕ → RetryOutcome)
    (v t : ℚ) (rs : ℕ → ℚ) (n : ℕ) (patches : List Patch)
    (h : fetchStage fetch (create_range n) = .ok patches) :
    generate_training_patch_data fetch v t rs n =
      .ok (partition3 v t rs 0
        ((patches.filter filter_good_patches).map beam_serialize)) := by
  simp [generate_training_patch_data, h]

/-- C4 counterexample: with a declared sample size of 2 and the configured
grace of 10, the claim requires a task for every index below 2 + 10 = 12,
but the Enumerate stage `beam.Create(range(0, self.sample_size, 1))`
enumerates `[0, sample_size)` only: index 11 (indeed any index ≥ 2)
receives no task. -/
theorem create_range_no_grace_counterexample :
    ¬ ∀ i, i < sample_locations_list_len 2 10 → i ∈ create_range 2 := by
  decide

/-- C4 amended: the Enumerate stage produces exactly one task per integer
index in the half-open range `[0, sampleCount)` — grace does not extend the
enumeration; it only pads the length of the materialized sample list to
`sampleCount + grace`, so every enumerated index stays strictly within the
padded list's bounds. -/
theorem create_range_exactly_sample_size (n grace i : ℕ) :
    (i ∈ create_range n ↔ i < n) ∧
    (create_range n).count i = (if i < n then 1 else 0) ∧
    (i ∈ create_range n → i < sample_locations_list_len n grace) := by
  refine ⟨List.mem_range, ?_, ?_⟩
  · by_cases h : i < n
    · rw [if_pos h]
      exact List.count_eq_one_of_mem (List.nodup_range n) (List.mem_range.mpr h)
    · rw [if_neg h]
      exact List.count_eq_zero_of_not_mem (fun hm => h (List.mem_range.mp hm))
  · intro hm
    have := List.mem_range.mp hm
    simp only [sample_locations_list_len]
    omega

/-- Witness for (amended) C4 at a concrete input: sample size 5, grace 10,
index 3 is enumerated. -/
theorem create_range_exactly_sample_size_witness : 3 ∈ create_range 5 :=
  (create_range_exactly_sample_size 5 10 3).1.mpr (by norm_num)

/-- C3 counterexample: under `badFetch` with two sample indices, the claim
requires element 0 to be dropped and the run to go on and emit element 1's
record in some stream; instead the modelled run surfaces the exhausted
fetch as a job failure and emits no output streams at all. -/
theorem pipeline_fetch_failure_not_dropped_counterexample :
    ¬ ∃ streams,
      generate_training_patch_data badFetch (1/5) (1/5) (fun _ => 0) 2 =
        .ok streams := by
  rintro ⟨streams, hs⟩
  have h : generate_training_patch_data badFetch (1/5) (1/5) (fun _ => 0) 2 =
      .error 0 := rfl
  rw [h] at hs
  exact Except.noConfusion hs

/-- C3 amended: element-level dropping holds for validation rejects only.
When every sample's fetch succeeds, the run succeeds and every record in
any output stream is the serialization of a fetched patch that passed
`filter_good_patches` — rejected patches are silently dropped and no
partial or corrupt record is ever written.  But when any sample's fetch
raises (retry budget exhausted or hard failure), the whole run fails as a
job error and no output streams are emitted at all, rather than only that
element being dropped. -/
theorem pipeline_element_failure_semantics (fetch : ℕ → RetryOutcome)
    (v t : ℚ) (rs : ℕ → ℚ) (n : ℕ) :
    ((∃ i, i < n ∧ ∀ p, fetch i ≠ .success p) →
      ∃ e, generate_training_patch_data fetch v t rs n = .error e) ∧
    ((∀ i, i < n → ∃ p, fetch i = .success p) →
      ∃ s1 s2 s3,
        generate_training_patch_data fetch v t rs n = .ok (s1, s2, s3) ∧
        ∀ x, (x ∈ s1 ∨ x ∈ s2 ∨ x ∈ s3) →
          ∃ p, filter_good_patches p = true ∧ x = beam_serialize p) := by
  constructor
  · rintro ⟨i, hin, hfail⟩
    obtain ⟨e, he⟩ := fetchStage_error_of_fail fetch (create_range n)
      ⟨i, List.mem_range.mpr hin, hfail⟩
    exact ⟨e, by simp [generate_training_patch_data, he]⟩
  · intro hall
    obtain ⟨patches, hps⟩ := fetchStage_ok_of_all_success fetch (create_range n)
      (fun i hi => hall i (List.mem_range.mp hi))
    rcases hpart : partition3 v t rs 0
        ((patches.filter filter_good_patches).map beam_serialize) with ⟨s1, s2, s3⟩
    refine ⟨s1, s2, s3, ?_, ?_⟩
    · rw [generate_training_patch_data_ok fetch v t rs n patches hps, hpart]
    · intro x hx
      have hmem : x ∈ (patches.filter filter_good_patches).map beam_serialize := by
        apply partition3_mem v t rs _ 0 x
        rw [hpart]
        exact hx
      obtain ⟨p, hpmem, hpx⟩ := List.mem_map.mp hmem
      exact ⟨p, (List.mem_filter.mp hpmem).2, hpx.symm⟩

/-- Witness for (amended) C3: under `badFetch` the run is a job failure;
under an always-successful fetch of an all-finite patch, a two-sample run
succeeds with every emitted record the serialization of a good patch. -/
theorem pipeline_element_failure_semantics_witness :
    (∃ e, generate_training_patch_data badFetch (1/5) (1/5) (fun _ => 0) 2 =
      .error e) ∧
    (∃ s1 s2 s3,
      generate_training_patch_data (fun _ => .success [⟨"B_before", [[F32.val 1]]⟩])
        (1/5) (1/5) (fun _ => 0) 2 = .ok (s1, s2, s3) ∧
      ∀ x, (x ∈ s1 ∨ x ∈ s2 ∨ x ∈ s3) →
        ∃ p, filter_good_patches p = true ∧ x = beam_serialize p) := by
  constructor
  · exact (pipeline_element_failure_semantics badFetch (1/5) (1/5) (fun _ => 0) 2).1
      ⟨0, by norm_num, by intro p h; simp [badFetch] at h⟩
  · exact (pipeline_element_failure_semantics
      (fun _ => .success [⟨"B_before", [[F32.val 1]]⟩]) (1/5) (1/5) (fun _ => 0) 2).2
      (fun i _ => ⟨[⟨"B_before", [[F32.val 1]]⟩], rfl⟩)

/-- A patch all of whose cells are finite passes the validator. -/
theorem good_of_all_finite (p : Patch)
    (h : ∀ x ∈ Patch.view p, x.isFinite = true) :
    filter_good_patches p = true := by
  obtain ⟨q, hq⟩ := foldl_finite_of_all_finite (Patch.view p) 0 h
  simp [filter_good_patches, npSum] at hq ⊢
  rw [hq]
  simp [F32.isnan, F32.isinf]

theorem foldl_add_nan (l : List F32) : l.foldl F32.add F32.nan = F32.nan := by
  induction l with
  | nil => rfl
  | cons x xs ih => simpa [List.foldl, F32.add_nan_left] using ih

/-- A patch with a NaN cell anywhere is rejected by the validator. -/
theorem not_good_of_nan (p : Patch) (h : F32.nan ∈ Patch.view p) :
    filter_good_patches p = false := by
  have hsum : npSum (Patch.view p) = F32.nan := by
    obtain ⟨l1, l2, hsplit⟩ := List.append_of_mem h
    rw [npSum, hsplit, List.foldl_append]
    simp only [List.foldl]
    rw [F32.add_nan_right]
    exact foldl_add_nan l2
  simp [filter_good_patches, hsum, F32.isnan]

theorem stubPatch_good (i : ℕ) : filter_good_patches (stubPatch i) = true := by
  apply good_of_all_finite
  intro x hx
  simp [stubPatch, constBand, Patch.view, Band.flatten,
    List.mem_replicate] at hx
  rcases hx with hx | hx <;> rw [hx] <;> rfl

theorem nanPatch_bad : filter_good_patches nanPatch = false := by
  apply not_good_of_nan
  simp [nanPatch, constBand, Patch.view, Band.flatten]

theorem stub_filter_eval :
    stubFetchedPatches.filter filter_good_patches = stubGoodPatches := by
  simp only [stubFetchedPatches, stubGoodPatches, List.filter_cons,
    stubPatch_good, nanPatch_bad, List.filter_nil]
  rfl

/-- C8: on 10 sample coordinates against the deterministic stub backend —
nine all-finite 4×4 2-band patches and one patch containing a NaN — the
pipeline run succeeds and, whatever uniform draws the partitioner uses,
produces exactly 9 serialized records in total across the three output
streams, and the NaN patch's record appears in no stream. -/
theorem pipeline_end_to_end_nine_records (rs : ℕ → ℚ) :
    ∃ s1 s2 s3,
      generate_training_patch_data stubFetch (1/5) (1/5) rs 10 =
        .ok (s1, s2, s3) ∧
      s1.length + s2.length + s3.length = 9 ∧
      beam_serialize nanPatch ∉ s1 ∧ beam_serialize nanPatch ∉ s2 ∧
      beam_serialize nanPatch ∉ s3 := by
  have hfetch : fetchStage stubFetch (create_range 10) = .ok stubFetchedPatches := by
    rfl
  have hrun := generate_training_patch_data_ok stubFetch (1/5) (1/5) rs 10
    stubFetchedPatches hfetch
  rw [stub_filter_eval] at hrun
  rcases hp : partition3 (1/5) (1/5) rs 0 (stubGoodPatches.map beam_serialize)
    with ⟨s1, s2, s3⟩
  refine ⟨s1, s2, s3, by rw [hrun, hp], ?_, ?_, ?_, ?_⟩
  · have hlen := partition3_length_sum (1/5) (1/5) rs
      (stubGoodPatches.map beam_serialize) 0
    rw [hp] at hlen
    simpa [stubGoodPatches] using hlen
  · intro hmem
    have hin : beam_serialize nanPatch ∈ stubGoodPatches.map beam_serialize := by
      apply partition3_mem (1/5) (1/5) rs _ 0
      rw [hp]
      exact Or.inl hmem
    exact absurd hin (by decide)
  · intro hmem
    have hin : beam_serialize nanPatch ∈ stubGoodPatches.map beam_serialize := by
      apply partition3_mem (1/5) (1/5) rs _ 0
      rw [hp]
      exact Or.inr (Or.inl hmem)
    exact absurd hin (by decide)
  · intro hmem
    have hin : beam_serialize nanPatch ∈ stubGoodPatches.map beam_serialize := by
      apply partition3_mem (1/5) (1/5) rs _ 0
      rw [hp]
      exact Or.inr (Or.inr hmem)
    exact absurd hin (by decide)

/-- C9: the raster region for a patch fetch is the point buffered by radius
`scale * patch_size / 2` and then bounded: an axis-aligned rectangle
centered on the coordinate whose side length equals `scale * patch_size`
on both axes. -/
theorem patch_region_centered_square (coords : PlanePoint) (scale : ℚ)
    (patch_size : ℕ) :
    patch_region coords scale patch_size =
      Geometry.rect
        (coords.x - scale * (patch_size : ℚ) / 2)
        (coords.x + scale * (patch_size : ℚ) / 2)
        (coords.y - scale * (patch_size : ℚ) / 2)
        (coords.y + scale * (patch_size : ℚ) / 2) ∧
    ∀ xmin xmax ymin ymax,
      patch_region coords scale patch_size = Geometry.rect xmin xmax ymin ymax →
      xmax - xmin = scale * (patch_size : ℚ) ∧
      ymax - ymin = scale * (patch_size : ℚ) ∧
      xmin + xmax = 2 * coords.x ∧ ymin + ymax = 2 * coords.y := by
  refine ⟨rfl, ?_⟩
  intro xmin xmax ymin ymax h
  have h' : Geometry.rect
      (coords.x - scale * (patch_size : ℚ) / 2)
      (coords.x + scale * (patch_size : ℚ) / 2)
      (coords.y - scale * (patch_size : ℚ) / 2)
      (coords.y + scale * (patch_size : ℚ) / 2) =
      Geometry.rect xmin xmax ymin ymax := h
  injection h' with h1 h2 h3 h4
  subst h1
  subst h2
  subst h3
  subst h4
  refine ⟨by ring, by ring, by ring, by ring⟩

/-- Witness for C9 at a concrete input: center (10, 20), scale 10, patch
size 128 gives the rectangle from (10−640, 20−640) to (10+640, 20+640),
whose side is 10 × 128 = 1280. -/
theorem patch_region_centered_square_witness :
    patch_region ⟨10, 20⟩ 10 128 =
      Geometry.rect (10 - 10 * (128 : ℚ) / 2) (10 + 10 * (128 : ℚ) / 2)
        (20 - 10 * (128 : ℚ) / 2) (20 + 10 * (128 : ℚ) / 2) ∧
    (10 + 10 * (128 : ℚ) / 2) - (10 - 10 * (128 : ℚ) / 2) = 10 * 128 := by
  constructor
  · exact (patch_region_centered_square ⟨10, 20⟩ 10 128).1
  · exact ((patch_region_centered_square ⟨10, 20⟩ 10 128).2 _ _ _ _
      (patch_region_centered_square ⟨10, 20⟩ 10 128).1).1
